import Mathlib

/-!
Verification of the pngme chunk codec (src/chunk.rs, src/chunk_type.rs).

Bytes are modelled as natural numbers (values below 256); u32 and usize
arithmetic is modelled on Nat with explicit reduction modulo 2^32 and 2^64
at the points where the Rust code casts or can wrap (release-mode
semantics).  Fallible operations return Except / an explicit result type;
the slice-indexing panics reachable in Chunk::try_from are modelled by an
explicit panicked outcome.
-/

namespace Pngme

/-- u32::from_be_bytes: big-endian value of a 4-byte list. -/
def fromBE4 : List Nat → Nat
  | [a, b, c, d] => ((a * 256 + b) * 256 + c) * 256 + d
  | _ => 0

/-- u32::to_be_bytes: the 4 big-endian bytes of a u32 value. -/
def toBE4 (n : Nat) : List Nat :=
  [n / 2 ^ 24 % 256, n / 2 ^ 16 % 256, n / 2 ^ 8 % 256, n % 256]

/-- one bit step of the reflected CRC-32 (IEEE polynomial 0xEDB88320). -/
def crcBitStep (c : Nat) : Nat :=
  if c % 2 = 1 then (c / 2) ^^^ 0xEDB88320 else c / 2

/-- one byte step of CRC-32: xor the byte in, then eight bit steps. -/
def crcByte (crc b : Nat) : Nat :=
  crcBitStep^[8] (crc ^^^ b)

/-- crc::crc32::checksum_ieee: CRC-32/ISO-HDLC (init 0xFFFFFFFF, reflected,
output xor 0xFFFFFFFF).  Validated against the check value
crc32 "123456789" = 0xCBF43926 and the repository test constant
crc32 ("RuSt" ++ "This is where your secret message will be!") = 2882656334. -/
def crc32 (data : List Nat) : Nat :=
  (data.foldl crcByte 0xFFFFFFFF) ^^^ 0xFFFFFFFF

/-- error taxonomy of ChunkType::from_str (spec section 7 names). -/
inductive ChunkTypeError
  | invalidLength
  | invalidCharacter
deriving DecidableEq, Repr

/-- struct ChunkType([u8; 4]): the 4 raw bytes of a chunk type code. -/
structure ChunkType where
  bytes : List Nat
deriving DecidableEq, Repr

/-- char::is_ascii_uppercase. -/
def isAsciiUpper (c : Char) : Bool := 65 ≤ c.toNat && c.toNat ≤ 90

/-- char::is_ascii_lowercase. -/
def isAsciiLower (c : Char) : Bool := 97 ≤ c.toNat && c.toNat ≤ 122

/-- standard UTF-8 encoding of one unicode scalar value (str::as_bytes). -/
def utf8EncodeChar (c : Char) : List Nat :=
  if c.toNat < 0x80 then [c.toNat]
  else if c.toNat < 0x800 then
    [0xC0 + c.toNat / 64, 0x80 + c.toNat % 64]
  else if c.toNat < 0x10000 then
    [0xE0 + c.toNat / 4096, 0x80 + c.toNat / 64 % 64, 0x80 + c.toNat % 64]
  else
    [0xF0 + c.toNat / 262144, 0x80 + c.toNat / 4096 % 64,
     0x80 + c.toNat / 64 % 64, 0x80 + c.toNat % 64]

/-- str::len: the UTF-8 byte length of a string (Rust strings are modelled
as their lists of unicode scalar values). -/
def utf8ByteLen (s : List Char) : Nat := (s.map utf8EncodeChar).flatten.length

/-- FromStr for ChunkType: reject unless the string is exactly 4 bytes long
(s.len() in Rust counts bytes); reject any character outside A-Z / a-z;
otherwise store the 4 bytes of s.as_bytes(). -/
def ChunkType.from_str (s : List Char) : Except ChunkTypeError ChunkType :=
  if utf8ByteLen s ≠ 4 then .error .invalidLength
  else if s.any (fun c => !(isAsciiUpper c || isAsciiLower c)) then
    .error .invalidCharacter
  else .ok ⟨(s.map utf8EncodeChar).flatten⟩

/-- TryFrom<[u8;4]> for ChunkType: always succeeds, stores the bytes
verbatim. -/
def ChunkType.try_from (b : List Nat) : ChunkType := ⟨b⟩

/-- ChunkType::is_critical: bit 0x20 of byte 0 is unset. -/
def ChunkType.is_critical (t : ChunkType) : Bool :=
  (t.bytes.getD 0 0) &&& 32 == 0

/-- ChunkType::is_public: bit 0x20 of byte 1 is unset. -/
def ChunkType.is_public (t : ChunkType) : Bool :=
  (t.bytes.getD 1 0) &&& 32 == 0

/-- ChunkType::is_reserved_bit_valid: bit 0x20 of byte 2 is unset. -/
def ChunkType.is_reserved_bit_valid (t : ChunkType) : Bool :=
  (t.bytes.getD 2 0) &&& 32 == 0

/-- ChunkType::is_safe_to_copy: bit 0x20 of byte 3 is set. -/
def ChunkType.is_safe_to_copy (t : ChunkType) : Bool :=
  (t.bytes.getD 3 0) &&& 32 != 0

/-- ChunkType::is_valid: exactly the reserved-bit check. -/
def ChunkType.is_valid (t : ChunkType) : Bool :=
  t.is_reserved_bit_valid

/-- a UTF-8 continuation byte: 0x80-0xBF. -/
def utf8Cont (b : Nat) : Bool := 0x80 ≤ b && b < 0xC0

/-- decode a 2-byte UTF-8 sequence with leading byte b (0xC2-0xDF): the
continuation byte and the remaining input.  Leading bytes 0xC0/0xC1 (the
overlong encodings) are already rejected by the caller. -/
def utf8Dec2 (b : Nat) : List Nat → Option (Nat × List Nat)
  | b1 :: bs1 =>
    if utf8Cont b1 then some ((b - 0xC0) * 64 + (b1 - 0x80), bs1) else none
  | _ => none

/-- decode a 3-byte UTF-8 sequence with leading byte b (0xE0-0xEF),
rejecting overlong encodings (below 0x800) and surrogates. -/
def utf8Dec3 (b : Nat) : List Nat → Option (Nat × List Nat)
  | b1 :: b2 :: bs2 =>
    let cp := (b - 0xE0) * 4096 + (b1 - 0x80) * 64 + (b2 - 0x80)
    if utf8Cont b1 && utf8Cont b2 && 0x800 ≤ cp
        && !(0xD800 ≤ cp && cp < 0xE000) then
      some (cp, bs2)
    else none
  | _ => none

/-- decode a 4-byte UTF-8 sequence with leading byte b (0xF0-0xF4),
rejecting overlong encodings (below 0x10000) and values above 0x10FFFF. -/
def utf8Dec4 (b : Nat) : List Nat → Option (Nat × List Nat)
  | b1 :: b2 :: b3 :: bs3 =>
    let cp := (b - 0xF0) * 262144 + (b1 - 0x80) * 4096
      + (b2 - 0x80) * 64 + (b3 - 0x80)
    if utf8Cont b1 && utf8Cont b2 && utf8Cont b3
        && 0x10000 ≤ cp && cp < 0x110000 then
      some (cp, bs3)
    else none
  | _ => none

/-- decode one unicode scalar value from leading byte b and the rest of the
input; returns the scalar value and the remaining bytes.  Stray
continuation bytes and the invalid leading bytes 0xC0, 0xC1, 0xF5-0xFF are
rejected. -/
def utf8DecodeOne (b : Nat) (bs : List Nat) : Option (Nat × List Nat) :=
  if b < 0x80 then some (b, bs)
  else if b < 0xC2 then none
  else if b < 0xE0 then utf8Dec2 b bs
  else if b < 0xF0 then utf8Dec3 b bs
  else if b < 0xF5 then utf8Dec4 b bs
  else none

/-- the fuel-indexed UTF-8 decoding loop: each step decodes one scalar
value and recurses on the remaining bytes; the fuel (an upper bound on the
number of scalar values, taken to be the byte count) makes the recursion
structural.  utf8DecodeAux_congr below shows the result does not depend on
the fuel once it is at least the byte count. -/
def utf8DecodeAux : Nat → List Nat → Option (List Char)
  | _, [] => some []
  | 0, _ :: _ => none
  | fuel + 1, b :: bs =>
    match utf8DecodeOne b bs with
    | none => none
    | some (cp, rest) =>
      (utf8DecodeAux fuel rest).map (fun cs => Char.ofNat cp :: cs)

/-- standard UTF-8 decoding of a byte list (String::from_utf8): rejects
stray continuation bytes, overlong encodings, surrogates and values above
0x10FFFF, exactly as Rust does. -/
def utf8Decode (bs : List Nat) : Option (List Char) :=
  utf8DecodeAux bs.length bs

/-- the chunk-level error taxonomy (spec section 7 names). -/
inductive ChunkError
  | tooShort
  | lengthMismatch
  | invalidType
  | checksumMismatch
deriving DecidableEq, Repr

/-- struct Chunk: declared length, type, payload, stored checksum. -/
structure Chunk where
  length : Nat
  chunk_type : ChunkType
  chunk_data : List Nat
  crc : Nat
deriving DecidableEq, Repr

/-- outcome of Chunk::try_from: success, a typed error, or a panic of the
Rust process (reachable through slice indexing, see tryFrom). -/
inductive ParseResult
  | ok (c : Chunk)
  | err (e : ChunkError)
  | panicked
deriving DecidableEq, Repr

/-- fn crc_checksum: CRC-32 over the type bytes followed by the payload. -/
def crc_checksum (t : ChunkType) (d : List Nat) : Nat :=
  crc32 (t.bytes ++ d)

/-- the composite type-parsing step of Chunk::try_from, lines 56-58:
String::from_utf8(value[4..8]) followed by ChunkType::from_str; both
failure modes collapse to the chunk-level InvalidType outcome. -/
def decodeType (bs : List Nat) : Option ChunkType :=
  (utf8Decode bs).bind (fun s => (ChunkType.from_str s).toOption)

/-- the local variable `length` of Chunk::try_from, line 48:
u32::from_be_bytes over the first 4 input bytes. -/
def chunkDeclaredLength (value : List Nat) : Nat := fromBE4 (value.take 4)

/-- the local variable `length_all` of Chunk::try_from, line 49:
`length + 12` in u32 arithmetic (release mode wraps modulo 2^32). -/
def chunkLengthAll (value : List Nat) : Nat :=
  (chunkDeclaredLength value + 12) % 2 ^ 32

/-- the checksum slice start `length_all as usize - 4` of Chunk::try_from,
line 60: usize subtraction, which wraps modulo 2^64 when length_all < 4. -/
def crcStart (value : List Nat) : Nat :=
  (chunkLengthAll value + (2 ^ 64 - 4)) % 2 ^ 64

/-- TryFrom<&Vec<u8>> for Chunk (src/chunk.rs lines 41-75), with
release-mode integer semantics: `length + 12` and `value.len() as u32`
reduce modulo 2^32, `length_all as usize - 4` wraps modulo 2^64, and a
slice whose start exceeds its end or whose end exceeds the vector length
panics (the panicked outcome).  The locals message and in_crc are the
slices value[8..8+length] and value[length_all-4..length_all]. -/
def Chunk.try_from (value : List Nat) : ParseResult :=
  if value.length < 12 then .err .tooShort
  else if chunkLengthAll value ≠ value.length % 2 ^ 32 then .err .lengthMismatch
  else
    match decodeType ((value.drop 4).take 4) with
    | none => .err .invalidType
    | some chunk_type =>
      if 8 + chunkDeclaredLength value > value.length then .panicked
      else if crcStart value > chunkLengthAll value ∨
          chunkLengthAll value > value.length then .panicked
      else if crc_checksum chunk_type
            ((value.drop 8).take (chunkDeclaredLength value)) ≠
          fromBE4 ((value.drop (crcStart value)).take 4) then
        .err .checksumMismatch
      else
        .ok ⟨chunkDeclaredLength value, chunk_type,
          (value.drop 8).take (chunkDeclaredLength value),
          fromBE4 ((value.drop (crcStart value)).take 4)⟩

/-- Chunk::new: length is data.len() as u32 (truncated modulo 2^32), the
checksum is computed over type bytes followed by the full payload. -/
def Chunk.new (chunk_type : ChunkType) (data : List Nat) : Chunk :=
  ⟨data.length % 2 ^ 32, chunk_type, data, crc_checksum chunk_type data⟩

/-- Chunk::as_bytes: big-endian length, type bytes, payload, big-endian
checksum. -/
def Chunk.as_bytes (c : Chunk) : List Nat :=
  toBE4 c.length ++ c.chunk_type.bytes ++ c.chunk_data ++ toBE4 c.crc

deriving instance DecidableEq for Except

/-- a byte is ASCII alphabetic (A-Z or a-z). -/
def isAlphaByte (b : Nat) : Prop := (65 ≤ b ∧ b ≤ 90) ∨ (97 ≤ b ∧ b ≤ 122)

instance (b : Nat) : Decidable (isAlphaByte b) := by
  unfold isAlphaByte
  infer_instance

/-- a well-formed 12-byte zero-payload RuSt frame followed by 2^32 bytes of
trailing garbage; its declared length is 0 yet the truncating length check
accepts it (3565422908 = crc32 of the RuSt type bytes, big-endian bytes
212, 132, 9, 60). -/
def bigV : List Nat :=
  [0, 0, 0, 0, 82, 117, 83, 116, 212, 132, 9, 60] ++ List.replicate (2 ^ 32) 0

/-- an input of 2^32 + 2 bytes whose declared length 4294967286 makes
length_all wrap to 2, so the checksum slice start underflows and the Rust
code panics. -/
def panicV : List Nat :=
  [255, 255, 255, 246, 82, 117, 83, 116] ++ List.replicate (2 ^ 32 - 6) 0

/-- a 12-byte frame with valid type Ru1t is impossible; this frame has the
non-alphabetic type bytes Ru1t and a zero checksum field: it passes the
length checks but fails the type check. -/
def ru1tFrame : List Nat := [0, 0, 0, 0, 82, 117, 49, 116, 0, 0, 0, 0]

/-- a 12-byte frame with valid type RuSt and a zero checksum field, which
does not match CRC-32 of the type bytes. -/
def rustBadCrcFrame : List Nat := [0, 0, 0, 0, 82, 117, 83, 116, 0, 0, 0, 0]

/-! ## Helper lemmas -/

theorem toBE4_length (n : Nat) : (toBE4 n).length = 4 := rfl

theorem toBE4_mem_lt (n : Nat) : ∀ b ∈ toBE4 n, b < 256 := by
  intro b hb
  simp [toBE4] at hb
  rcases hb with h | h | h | h <;> omega

theorem fromBE4_toBE4 {n : Nat} (h : n < 2 ^ 32) : fromBE4 (toBE4 n) = n := by
  simp [toBE4, fromBE4]
  omega

theorem toBE4_fromBE4 {a b c d : Nat} (ha : a < 256) (hb : b < 256)
    (hc : c < 256) (hd : d < 256) :
    toBE4 (fromBE4 [a, b, c, d]) = [a, b, c, d] := by
  simp [toBE4, fromBE4]
  omega

theorem fromBE4_lt {a b c d : Nat} (ha : a < 256) (hb : b < 256)
    (hc : c < 256) (hd : d < 256) : fromBE4 [a, b, c, d] < 2 ^ 32 := by
  simp [fromBE4]
  omega

theorem toBE4_fromBE4_list {l : List Nat} (h4 : l.length = 4)
    (hb : ∀ b ∈ l, b < 256) : toBE4 (fromBE4 l) = l := by
  match l, h4 with
  | [a, b, c, d], _ =>
    exact toBE4_fromBE4 (hb a (by simp)) (hb b (by simp)) (hb c (by simp))
      (hb d (by simp))

theorem fromBE4_lt_list {l : List Nat} (h4 : l.length = 4)
    (hb : ∀ b ∈ l, b < 256) : fromBE4 l < 2 ^ 32 := by
  match l, h4 with
  | [a, b, c, d], _ =>
    exact fromBE4_lt (hb a (by simp)) (hb b (by simp)) (hb c (by simp))
      (hb d (by simp))

theorem crcBitStep_lt {c : Nat} (h : c < 2 ^ 32) : crcBitStep c < 2 ^ 32 := by
  unfold crcBitStep
  split
  · exact Nat.xor_lt_two_pow (by omega) (by norm_num)
  · omega

theorem iterate_crcBitStep_lt :
    ∀ (k : Nat) {c : Nat}, c < 2 ^ 32 → crcBitStep^[k] c < 2 ^ 32
  | 0, _, h => h
  | k + 1, c, h => by
    rw [Function.iterate_succ_apply]
    exact iterate_crcBitStep_lt k (crcBitStep_lt h)

theorem crcByte_lt {c b : Nat} (hc : c < 2 ^ 32) (hb : b < 2 ^ 32) :
    crcByte c b < 2 ^ 32 :=
  iterate_crcBitStep_lt 8 (Nat.xor_lt_two_pow hc hb)

theorem foldl_crcByte_lt :
    ∀ (data : List Nat) {acc : Nat}, acc < 2 ^ 32 → (∀ b ∈ data, b < 256) →
      data.foldl crcByte acc < 2 ^ 32
  | [], _, h, _ => h
  | b :: bs, acc, h, hd => by
    simp only [List.foldl_cons]
    refine foldl_crcByte_lt bs (crcByte_lt h ?_) (fun x hx => hd x (by simp [hx]))
    have : b < 256 := hd b (by simp)
    omega

theorem crc32_lt (data : List Nat) (h : ∀ b ∈ data, b < 256) :
    crc32 data < 2 ^ 32 := by
  unfold crc32
  exact Nat.xor_lt_two_pow (foldl_crcByte_lt data (by norm_num) h) (by norm_num)

theorem crc_checksum_lt {t : ChunkType} {d : List Nat}
    (ht : ∀ b ∈ t.bytes, b < 256) (hd : ∀ b ∈ d, b < 256) :
    crc_checksum t d < 2 ^ 32 := by
  refine crc32_lt _ (fun b hb => ?_)
  rcases List.mem_append.1 hb with h | h
  · exact ht b h
  · exact hd b h

theorem char_toNat_ofNat {n : Nat} (h : n.isValidChar) :
    (Char.ofNat n).toNat = n := by
  rw [Char.ofNat, dif_pos h]
  rfl

theorem char_toNat_ofNat_lt {n : Nat} (h : n < 55296) :
    (Char.ofNat n).toNat = n :=
  char_toNat_ofNat (Or.inl h)

theorem isAlphaByte_lt {b : Nat} (h : isAlphaByte b) : b < 128 := by
  rcases h with ⟨_, _⟩ | ⟨_, _⟩ <;> omega

theorem and32_cases (n : Nat) :
    (Nat.testBit n 5 = false ∧ n &&& 32 = 0) ∨
      (Nat.testBit n 5 = true ∧ n &&& 32 = 32) := by
  rw [show (32 : Nat) = 2 ^ 5 by norm_num, Nat.and_two_pow]
  cases hb : Nat.testBit n 5 <;> simp

theorem alpha_char_lt {c : Char}
    (h : (isAsciiUpper c || isAsciiLower c) = true) : c.toNat < 128 := by
  simp [isAsciiUpper, isAsciiLower] at h
  rcases h with ⟨_, _⟩ | ⟨_, _⟩ <;> omega

theorem alpha_char_toNat {c : Char}
    (h : (isAsciiUpper c || isAsciiLower c) = true) : isAlphaByte c.toNat := by
  simp [isAsciiUpper, isAsciiLower] at h
  unfold isAlphaByte
  omega

theorem alphaByte_char {b : Nat} (h : isAlphaByte b) :
    (isAsciiUpper (Char.ofNat b) || isAsciiLower (Char.ofNat b)) = true := by
  have hlt : b < 128 := isAlphaByte_lt h
  have htn : (Char.ofNat b).toNat = b := char_toNat_ofNat_lt (by omega)
  simp [isAsciiUpper, isAsciiLower, htn]
  unfold isAlphaByte at h
  omega

theorem utf8DecodeOne_ascii {b : Nat} (bs : List Nat) (h : b < 128) :
    utf8DecodeOne b bs = some (b, bs) := by
  unfold utf8DecodeOne
  rw [if_pos h]

theorem utf8DecodeOne_rest_length {b : Nat} {bs rest : List Nat} {cp : Nat}
    (h : utf8DecodeOne b bs = some (cp, rest)) : rest.length ≤ bs.length := by
  unfold utf8DecodeOne at h
  split_ifs at h
  · simp at h
    simp [← h.2]
  · cases bs with
    | nil => simp [utf8Dec2] at h
    | cons b1 bs1 =>
      simp only [utf8Dec2] at h
      split_ifs at h
      simp at h
      simp [← h.2]
  · cases bs with
    | nil => simp [utf8Dec3] at h
    | cons b1 bs1 =>
      cases bs1 with
      | nil => simp [utf8Dec3] at h
      | cons b2 bs2 =>
        simp only [utf8Dec3] at h
        split_ifs at h
        simp at h
        rw [← h.2]
        simp
        omega
  · cases bs with
    | nil => simp [utf8Dec4] at h
    | cons b1 bs1 =>
      cases bs1 with
      | nil => simp [utf8Dec4] at h
      | cons b2 bs2 =>
        cases bs2 with
        | nil => simp [utf8Dec4] at h
        | cons b3 bs3 =>
          simp only [utf8Dec4] at h
          split_ifs at h
          simp at h
          rw [← h.2]
          simp
          omega

theorem utf8DecodeAux_congr (f1 : Nat) : ∀ (f2 : Nat) (bs : List Nat),
    bs.length ≤ f1 → bs.length ≤ f2 →
    utf8DecodeAux f1 bs = utf8DecodeAux f2 bs := by
  induction f1 with
  | zero =>
    intro f2 bs h1 _
    cases bs with
    | nil => rw [utf8DecodeAux.eq_1, utf8DecodeAux.eq_1]
    | cons b bs => simp at h1
  | succ g1 ih =>
    intro f2 bs h1 h2
    cases bs with
    | nil => rw [utf8DecodeAux.eq_1, utf8DecodeAux.eq_1]
    | cons b bs =>
      cases f2 with
      | zero => simp at h2
      | succ g2 =>
        simp only [utf8DecodeAux]
        cases hone : utf8DecodeOne b bs with
        | none => rfl
        | some pr =>
          obtain ⟨cp, rest⟩ := pr
          have hr : rest.length ≤ bs.length := utf8DecodeOne_rest_length hone
          simp only [List.length_cons] at h1 h2
          exact congrArg (Option.map fun cs => Char.ofNat cp :: cs)
            (ih g2 rest (by omega) (by omega))

theorem utf8Decode_nil : utf8Decode [] = some [] := rfl

theorem utf8Decode_cons_some {b cp : Nat} {bs rest : List Nat}
    (h : utf8DecodeOne b bs = some (cp, rest)) :
    utf8Decode (b :: bs) =
      (utf8Decode rest).map (fun cs => Char.ofNat cp :: cs) := by
  unfold utf8Decode
  simp only [List.length_cons, utf8DecodeAux, h]
  rw [utf8DecodeAux_congr bs.length rest.length rest
    (utf8DecodeOne_rest_length h) (le_refl _)]

theorem utf8Decode_cons_none {b : Nat} {bs : List Nat}
    (h : utf8DecodeOne b bs = none) : utf8Decode (b :: bs) = none := by
  unfold utf8Decode
  simp only [List.length_cons, utf8DecodeAux, h]

theorem utf8Decode_ascii (l : List Nat) (h : ∀ b ∈ l, b < 128) :
    utf8Decode l = some (l.map Char.ofNat) := by
  induction l with
  | nil => exact utf8Decode_nil
  | cons b bs ih =>
    rw [utf8Decode_cons_some (utf8DecodeOne_ascii bs (h b (by simp)))]
    rw [ih (fun x hx => h x (by simp [hx]))]
    rfl

theorem utf8DecodeOne_some {b cp : Nat} {bs rest : List Nat}
    (h : utf8DecodeOne b bs = some (cp, rest)) :
    (b < 128 ∧ cp = b ∧ rest = bs) ∨ (128 ≤ cp ∧ cp.isValidChar) := by
  unfold utf8DecodeOne at h
  split_ifs at h with h1 h2 h3 h4 h5
  · simp at h
    exact Or.inl ⟨h1, h.1.symm, h.2.symm⟩
  · refine Or.inr ?_
    cases bs with
    | nil => simp [utf8Dec2] at h
    | cons b1 bs1 =>
      simp only [utf8Dec2] at h
      split_ifs at h with hc
      simp only [utf8Cont] at hc
      simp at hc h
      unfold Nat.isValidChar
      omega
  · refine Or.inr ?_
    cases bs with
    | nil => simp [utf8Dec3] at h
    | cons b1 bs1 =>
      cases bs1 with
      | nil => simp [utf8Dec3] at h
      | cons b2 bs2 =>
        simp only [utf8Dec3] at h
        split_ifs at h with hc
        simp only [utf8Cont] at hc
        simp at hc h
        unfold Nat.isValidChar
        omega
  · refine Or.inr ?_
    cases bs with
    | nil => simp [utf8Dec4] at h
    | cons b1 bs1 =>
      cases bs1 with
      | nil => simp [utf8Dec4] at h
      | cons b2 bs2 =>
        cases bs2 with
        | nil => simp [utf8Dec4] at h
        | cons b3 bs3 =>
          simp only [utf8Dec4] at h
          split_ifs at h with hc
          simp only [utf8Cont] at hc
          simp at hc h
          unfold Nat.isValidChar
          omega

theorem utf8DecodeAux_map_toNat (fuel : Nat) :
    ∀ (bs : List Nat) (cs : List Char), bs.length ≤ fuel →
      utf8DecodeAux fuel bs = some cs →
      (∀ c ∈ cs, c.toNat < 128) → cs.map Char.toNat = bs := by
  induction fuel with
  | zero =>
    intro bs cs hf h _
    cases bs with
    | nil =>
      rw [utf8DecodeAux.eq_1] at h
      obtain rfl := Option.some.inj h
      rfl
    | cons b bs => simp at hf
  | succ g ih =>
    intro bs cs hf h hch
    cases bs with
    | nil =>
      rw [utf8DecodeAux.eq_1] at h
      obtain rfl := Option.some.inj h
      rfl
    | cons b bs =>
      simp only [utf8DecodeAux] at h
      cases hone : utf8DecodeOne b bs with
      | none =>
        rw [hone] at h
        cases h
      | some pr =>
        obtain ⟨cp, rest⟩ := pr
        rw [hone] at h
        simp only [Option.map_eq_some'] at h
        obtain ⟨cs1, hcs1, rfl⟩ := h
        have hr : rest.length ≤ bs.length := utf8DecodeOne_rest_length hone
        simp only [List.length_cons] at hf
        rcases utf8DecodeOne_some hone with ⟨hb, rfl, rfl⟩ | ⟨hge, hvalid⟩
        · have hhead : (Char.ofNat cp).toNat = cp := char_toNat_ofNat_lt (by omega)
          simp only [List.map_cons, hhead]
          rw [ih _ cs1 (by omega) hcs1 (fun c hc => hch c (by simp [hc]))]
        · have hhead : (Char.ofNat cp).toNat = cp := char_toNat_ofNat hvalid
          have := hch (Char.ofNat cp) (by simp)
          rw [hhead] at this
          omega

theorem utf8Decode_map_toNat :
    ∀ (bs : List Nat) (cs : List Char), utf8Decode bs = some cs →
      (∀ c ∈ cs, c.toNat < 128) → cs.map Char.toNat = bs := by
  intro bs cs h hch
  exact utf8DecodeAux_map_toNat bs.length bs cs (le_refl _) h hch

theorem utf8EncodeChar_ascii {c : Char} (h : c.toNat < 128) :
    utf8EncodeChar c = [c.toNat] := by
  unfold utf8EncodeChar
  rw [if_pos h]

theorem flatten_encode_ascii (s : List Char) (h : ∀ c ∈ s, c.toNat < 128) :
    (s.map utf8EncodeChar).flatten = s.map Char.toNat := by
  induction s with
  | nil => rfl
  | cons c cs ih =>
    simp only [List.map_cons, List.flatten_cons,
      utf8EncodeChar_ascii (h c (by simp)),
      ih (fun x hx => h x (by simp [hx]))]
    rfl

theorem map_toNat_ofNat {bs : List Nat} (h : ∀ b ∈ bs, b < 128) :
    (bs.map Char.ofNat).map Char.toNat = bs := by
  rw [List.map_map]
  refine List.map_congr_left (fun b hb => char_toNat_ofNat_lt ?_) |>.trans
    (List.map_id bs)
  have := h b hb
  omega

theorem from_str_ok {s : List Char} {ct : ChunkType}
    (h : ChunkType.from_str s = .ok ct) :
    (∀ c ∈ s, (isAsciiUpper c || isAsciiLower c) = true) ∧
      ct.bytes = s.map Char.toNat ∧ s.length = 4 := by
  unfold ChunkType.from_str at h
  by_cases h1 : utf8ByteLen s ≠ 4
  · rw [if_pos h1] at h
    cases h
  rw [if_neg h1] at h
  by_cases h2 : (s.any fun c => !(isAsciiUpper c || isAsciiLower c)) = true
  · rw [if_pos h2] at h
    cases h
  rw [if_neg h2] at h
  cases h
  have halpha : ∀ c ∈ s, (isAsciiUpper c || isAsciiLower c) = true := by
    simp [List.any_eq_true] at h2
    intro c hc
    simp only [Bool.or_eq_true]
    by_cases hup : isAsciiUpper c = true
    · exact Or.inl hup
    · exact Or.inr (h2 c hc (by simpa using hup))
  have hlt : ∀ c ∈ s, c.toNat < 128 := fun c hc => alpha_char_lt (halpha c hc)
  have hlen4 : s.length = 4 := by
    simp only [ne_eq, not_not] at h1
    unfold utf8ByteLen at h1
    rw [flatten_encode_ascii s hlt] at h1
    simpa using h1
  exact ⟨halpha, by simp [flatten_encode_ascii s hlt], hlen4⟩

theorem from_str_alpha {s : List Char} (h4 : utf8ByteLen s = 4)
    (ha : ∀ c ∈ s, (isAsciiUpper c || isAsciiLower c) = true) :
    ChunkType.from_str s = .ok ⟨(s.map utf8EncodeChar).flatten⟩ := by
  have hany : (s.any fun c => !(isAsciiUpper c || isAsciiLower c)) = false := by
    rw [List.any_eq_false]
    intro c hc
    simp [ha c hc]
  unfold ChunkType.from_str
  rw [if_neg (by omega), if_neg (by simp only [hany]; simp)]

theorem decodeType_alpha {bs : List Nat} (h4 : bs.length = 4)
    (ha : ∀ b ∈ bs, isAlphaByte b) : decodeType bs = some ⟨bs⟩ := by
  have hlt : ∀ b ∈ bs, b < 128 := fun b hb => isAlphaByte_lt (ha b hb)
  have htn : ∀ c ∈ bs.map Char.ofNat, c.toNat < 128 := by
    intro c hc
    obtain ⟨b, hb, rfl⟩ := List.mem_map.1 hc
    rw [char_toNat_ofNat_lt (by have := hlt b hb; omega)]
    exact hlt b hb
  have henc : ((bs.map Char.ofNat).map utf8EncodeChar).flatten = bs := by
    rw [flatten_encode_ascii _ htn, map_toNat_ofNat hlt]
  unfold decodeType
  rw [utf8Decode_ascii bs hlt, Option.some_bind]
  rw [from_str_alpha (by unfold utf8ByteLen; rw [henc, h4])
    (by
      intro c hc
      obtain ⟨b, hb, rfl⟩ := List.mem_map.1 hc
      exact alphaByte_char (ha b hb))]
  simp only [Except.toOption]
  rw [henc]

theorem decodeType_some {bs : List Nat} {t : ChunkType}
    (h : decodeType bs = some t) :
    t.bytes = bs ∧ (∀ b ∈ bs, isAlphaByte b) ∧ bs.length = 4 := by
  unfold decodeType at h
  cases hdec : utf8Decode bs with
  | none =>
    rw [hdec, Option.none_bind] at h
    cases h
  | some s =>
    rw [hdec, Option.some_bind] at h
    cases hfs : ChunkType.from_str s with
    | error e =>
      rw [hfs] at h
      cases h
    | ok t2 =>
      rw [hfs] at h
      obtain rfl : t2 = t := by simpa [Except.toOption] using h
      obtain ⟨halpha, hbytes, hlen⟩ := from_str_ok hfs
      have hlt : ∀ c ∈ s, c.toNat < 128 := fun c hc => alpha_char_lt (halpha c hc)
      have hmap := utf8Decode_map_toNat bs s hdec hlt
      refine ⟨by rw [hbytes, hmap], ?_, by rw [← hmap]; simpa using hlen⟩
      intro b hb
      rw [← hmap] at hb
      obtain ⟨c, hc, rfl⟩ := List.mem_map.1 hb
      exact alpha_char_toNat (halpha c hc)

theorem fromBE4_take4_lt {v : List Nat} (h4 : 4 ≤ v.length)
    (hb : ∀ b ∈ v, b < 256) : fromBE4 (v.take 4) < 2 ^ 32 := by
  refine fromBE4_lt_list ?_ (fun b hb2 => hb b (List.mem_of_mem_take hb2))
  simp [List.length_take]
  omega

theorem try_from_ok_basic {v : List Nat} {c : Chunk}
    (h : Chunk.try_from v = .ok c) :
    12 ≤ v.length ∧ chunkLengthAll v = v.length % 2 ^ 32 := by
  unfold Chunk.try_from at h
  by_cases h1 : v.length < 12
  · rw [if_pos h1] at h
    cases h
  · rw [if_neg h1] at h
    by_cases h2 : chunkLengthAll v ≠ v.length % 2 ^ 32
    · rw [if_pos h2] at h
      cases h
    · exact ⟨by omega, by omega⟩

theorem length_exact {v : List Nat} (hb : ∀ b ∈ v, b < 256)
    (h12 : 12 ≤ v.length) (hlt : v.length < 2 ^ 32)
    (hmod : chunkLengthAll v = v.length % 2 ^ 32) :
    chunkDeclaredLength v + 12 = v.length := by
  have hL : chunkDeclaredLength v < 2 ^ 32 :=
    fromBE4_take4_lt (by omega) hb
  unfold chunkLengthAll at hmod
  omega

theorem try_from_invalidType {v : List Nat}
    (h12 : 12 ≤ v.length)
    (hmod : chunkLengthAll v = v.length % 2 ^ 32)
    (hdec : decodeType ((v.drop 4).take 4) = none) :
    Chunk.try_from v = .err .invalidType := by
  unfold Chunk.try_from
  rw [if_neg (show ¬v.length < 12 by omega),
    if_neg (show ¬chunkLengthAll v ≠ v.length % 2 ^ 32 by omega), hdec]

theorem try_from_after_checks {v : List Nat} {t : ChunkType}
    (hb : ∀ b ∈ v, b < 256) (h12 : 12 ≤ v.length) (hlt : v.length < 2 ^ 32)
    (hmod : chunkLengthAll v = v.length % 2 ^ 32)
    (hdec : decodeType ((v.drop 4).take 4) = some t) :
    Chunk.try_from v =
      if crc_checksum t ((v.drop 8).take (v.length - 12)) ≠
          fromBE4 ((v.drop (v.length - 4)).take 4) then
        .err .checksumMismatch
      else
        .ok ⟨v.length - 12, t, (v.drop 8).take (v.length - 12),
          fromBE4 ((v.drop (v.length - 4)).take 4)⟩ := by
  have hexact : chunkDeclaredLength v + 12 = v.length :=
    length_exact hb h12 hlt hmod
  have hL : chunkDeclaredLength v = v.length - 12 := by omega
  have hla : chunkLengthAll v = v.length := by
    rw [hmod, Nat.mod_eq_of_lt hlt]
  have hcs : crcStart v = v.length - 4 := by
    unfold crcStart
    rw [hla]
    omega
  unfold Chunk.try_from
  rw [if_neg (show ¬v.length < 12 by omega),
    if_neg (show ¬chunkLengthAll v ≠ v.length % 2 ^ 32 by omega)]
  split
  · rename_i heq
    rw [hdec] at heq
    cases heq
  · rename_i ct heq
    rw [hdec] at heq
    cases Option.some.inj heq
    rw [if_neg (show ¬8 + chunkDeclaredLength v > v.length by omega)]
    rw [if_neg (show ¬(crcStart v > chunkLengthAll v ∨
      chunkLengthAll v > v.length) by omega)]
    rw [hcs, hL]

theorem as_bytes_def (c : Chunk) :
    c.as_bytes = toBE4 c.length ++ c.chunk_type.bytes ++ c.chunk_data
      ++ toBE4 c.crc := rfl

theorem new_def (t : ChunkType) (d : List Nat) :
    Chunk.new t d = ⟨d.length % 2 ^ 32, t, d, crc_checksum t d⟩ := rfl

theorem as_bytes_new_length {t : ChunkType} (h4 : t.bytes.length = 4)
    (d : List Nat) : (Chunk.new t d).as_bytes.length = d.length + 12 := by
  simp [as_bytes_def, new_def, toBE4_length, h4]
  omega

theorem mem_as_bytes_new_lt {t : ChunkType} {d : List Nat}
    (ht : ∀ b ∈ t.bytes, b < 256) (hd : ∀ b ∈ d, b < 256) :
    ∀ b ∈ (Chunk.new t d).as_bytes, b < 256 := by
  intro b hb
  rw [as_bytes_def] at hb
  simp only [List.append_assoc, List.mem_append] at hb
  rcases hb with h | h | h | h
  · exact toBE4_mem_lt _ b h
  · exact ht b h
  · exact hd b h
  · exact toBE4_mem_lt _ b h

theorem try_from_new {t : ChunkType} {d : List Nat} (h4 : t.bytes.length = 4)
    (ha : ∀ b ∈ t.bytes, isAlphaByte b) (hd : ∀ b ∈ d, b < 256)
    (hlen : d.length + 12 < 2 ^ 32) :
    Chunk.try_from (Chunk.new t d).as_bytes = .ok (Chunk.new t d) := by
  have ht256 : ∀ b ∈ t.bytes, b < 256 := by
    intro b hb
    have := isAlphaByte_lt (ha b hb)
    omega
  set v := (Chunk.new t d).as_bytes with hv
  have hK : crc_checksum t d < 2 ^ 32 := crc_checksum_lt ht256 hd
  have hdlm : d.length % 2 ^ 32 = d.length := Nat.mod_eq_of_lt (by omega)
  have hvdef : v = toBE4 d.length ++ (t.bytes ++ (d ++ toBE4 (crc_checksum t d))) := by
    rw [hv, as_bytes_def, new_def, hdlm]
    simp [List.append_assoc]
  have hvdef8 : v = (toBE4 d.length ++ t.bytes) ++ (d ++ toBE4 (crc_checksum t d)) := by
    rw [hvdef]
    simp [List.append_assoc]
  have hvdefK : v = ((toBE4 d.length ++ t.bytes) ++ d) ++ toBE4 (crc_checksum t d) := by
    rw [hvdef]
    simp [List.append_assoc]
  have hlenv : v.length = d.length + 12 := by
    rw [hv, as_bytes_new_length h4]
  have hb : ∀ b ∈ v, b < 256 := by
    rw [hv]
    exact mem_as_bytes_new_lt ht256 hd
  have hv4 : v.take 4 = toBE4 d.length := by
    rw [hvdef, List.take_left' (toBE4_length d.length)]
  have hdl : chunkDeclaredLength v = d.length := by
    unfold chunkDeclaredLength
    rw [hv4, fromBE4_toBE4 (by omega)]
  have hmod : chunkLengthAll v = v.length % 2 ^ 32 := by
    unfold chunkLengthAll
    rw [hdl, hlenv]
  have hdrop4 : (v.drop 4).take 4 = t.bytes := by
    rw [hvdef, List.drop_left' (toBE4_length d.length), List.take_left' h4]
  have hdec : decodeType ((v.drop 4).take 4) = some t := by
    rw [hdrop4]
    exact decodeType_alpha h4 ha
  have h8 : (toBE4 d.length ++ t.bytes).length = 8 := by
    simp [toBE4_length, h4]
  have hmsg : (v.drop 8).take (v.length - 12) = d := by
    rw [hlenv, hvdef8, List.drop_left' h8]
    simp only [Nat.add_sub_cancel]
    rw [List.take_left' rfl]
  have hcrcslice : (v.drop (v.length - 4)).take 4 = toBE4 (crc_checksum t d) := by
    have hfront : ((toBE4 d.length ++ t.bytes) ++ d).length = d.length + 8 := by
      simp [toBE4_length, h4]
      omega
    rw [hlenv, show d.length + 12 - 4 = d.length + 8 by omega,
      hvdefK, List.drop_left' hfront]
    exact List.take_all_of_le (by simp [toBE4_length])
  rw [try_from_after_checks hb (by omega) (by omega) hmod hdec]
  rw [hmsg, hcrcslice, fromBE4_toBE4 hK]
  rw [if_neg (by simp)]
  rw [new_def, hlenv, hdlm]
  simp


theorem take_append_le {n : Nat} {l1 l2 : List Nat} (h : n ≤ l1.length) :
    (l1 ++ l2).take n = l1.take n := by
  rw [List.take_append_eq_append_take, show n - l1.length = 0 by omega]
  simp

theorem drop_append_le {n : Nat} {l1 l2 : List Nat} (h : n ≤ l1.length) :
    (l1 ++ l2).drop n = l1.drop n ++ l2 := by
  rw [List.drop_append_eq_append_drop, show n - l1.length = 0 by omega]
  simp

theorem frame_decomp (v : List Nat) (h : 12 ≤ v.length) :
    v.take 4 ++ (v.drop 4).take 4 ++ (v.drop 8).take (v.length - 12) ++
      (v.drop (v.length - 4)).take 4 = v := by
  have e1 : (v.drop 4).take 4 = (v.take 8).drop 4 := by
    rw [List.take_drop]
  have e2 : v.take 4 = (v.take 8).take 4 := by
    rw [List.take_take]
    norm_num
  have e12 : v.take 4 ++ (v.drop 4).take 4 = v.take 8 := by
    rw [e1, e2, List.take_append_drop]
  have e3 : (v.drop 8).take (v.length - 12) = (v.take (v.length - 4)).drop 8 := by
    rw [List.take_drop, show 8 + (v.length - 12) = v.length - 4 by omega]
  have e4 : v.take 8 = (v.take (v.length - 4)).take 8 := by
    rw [List.take_take, show 8 ⊓ (v.length - 4) = 8 by
      rw [Nat.min_def]
      split <;> omega]
  have e34 : v.take 8 ++ (v.drop 8).take (v.length - 12) =
      v.take (v.length - 4) := by
    rw [e3, e4, List.take_append_drop]
  have e5 : (v.drop (v.length - 4)).take 4 = v.drop (v.length - 4) :=
    List.take_all_of_le (by rw [List.length_drop]; omega)
  rw [e12, e34, e5, List.take_append_drop]

theorem try_from_ok_shape {v : List Nat} {c : Chunk}
    (hb : ∀ b ∈ v, b < 256) (hlt : v.length < 2 ^ 32)
    (h : Chunk.try_from v = .ok c) :
    12 ≤ v.length ∧
      decodeType ((v.drop 4).take 4) = some c.chunk_type ∧
      c.length = v.length - 12 ∧
      c.chunk_data = (v.drop 8).take (v.length - 12) ∧
      c.crc = fromBE4 ((v.drop (v.length - 4)).take 4) ∧
      crc_checksum c.chunk_type c.chunk_data = c.crc := by
  obtain ⟨h12, hmod⟩ := try_from_ok_basic h
  cases hdec : decodeType ((v.drop 4).take 4) with
  | none =>
    rw [try_from_invalidType h12 hmod hdec] at h
    cases h
  | some t =>
    rw [try_from_after_checks hb h12 hlt hmod hdec] at h
    by_cases hcrc : crc_checksum t ((v.drop 8).take (v.length - 12)) ≠
        fromBE4 ((v.drop (v.length - 4)).take 4)
    · rw [if_pos hcrc] at h
      cases h
    · rw [if_neg hcrc] at h
      rw [not_ne_iff] at hcrc
      obtain rfl := ParseResult.ok.inj h
      exact ⟨h12, rfl, rfl, rfl, rfl, hcrc⟩

theorem getD_mem {l : List Nat} {n d : Nat} (h : n < l.length) :
    l.getD n d ∈ l := by
  rw [List.getD_eq_getElem?_getD, List.getElem?_eq_getElem h]
  simp only [Option.getD_some]
  exact List.getElem_mem h

theorem getD_set_self {l : List Nat} {j x : Nat} (h : j < l.length) :
    (l.set j x).getD j 0 = x := by
  rw [List.getD_eq_getElem?_getD, List.getElem?_set_self h]
  rfl

theorem xor_pow_ne {x i : Nat} : x ^^^ 2 ^ i ≠ x := by
  intro hcontra
  have h1 := congrArg (fun y => x ^^^ y) hcontra
  simp only [← Nat.xor_assoc, Nat.xor_self, Nat.zero_xor] at h1
  have h2 : 0 < 2 ^ i := Nat.two_pow_pos i
  omega

theorem bitflip_checksum {front cb : List Nat} {c : Chunk} {j i : Nat}
    (hb : ∀ b ∈ front ++ cb, b < 256) (hlt : (front ++ cb).length < 2 ^ 32)
    (h4 : cb.length = 4) (hj : j < 4) (hi : i < 8)
    (hok : Chunk.try_from (front ++ cb) = .ok c) :
    Chunk.try_from (front ++ cb.set j (cb.getD j 0 ^^^ 2 ^ i)) =
      .err .checksumMismatch := by
  obtain ⟨h12, hdec, hclen, hcdata, hccrc, hchk⟩ := try_from_ok_shape hb hlt hok
  obtain ⟨hbasic12, hmod⟩ := try_from_ok_basic hok
  have hlenv : (front ++ cb).length = front.length + 4 := by
    rw [List.length_append, h4]
  have hfront8 : 8 ≤ front.length := by omega
  set x := cb.getD j 0 ^^^ 2 ^ i with hx
  set cb2 := cb.set j x with hcb2
  have hcb2len : cb2.length = 4 := by
    rw [hcb2, List.length_set, h4]
  have hlen2 : (front ++ cb2).length = (front ++ cb).length := by
    rw [List.length_append, List.length_append, hcb2len, h4]
  have hxlt : x < 256 := by
    have h1 : cb.getD j 0 < 256 :=
      hb _ (List.mem_append_right front (getD_mem (by omega)))
    have h2 : (2 : Nat) ^ i < 2 ^ 8 := Nat.pow_lt_pow_right (by norm_num) hi
    have h3 := Nat.xor_lt_two_pow (x := cb.getD j 0) (y := 2 ^ i) (n := 8)
      (by omega) (by omega)
    omega
  have hcb256 : ∀ b ∈ cb, b < 256 := fun b hm =>
    hb b (List.mem_append_right front hm)
  have hcb2256 : ∀ b ∈ cb2, b < 256 := by
    intro b hm
    rcases List.mem_or_eq_of_mem_set hm with hm2 | rfl
    · exact hcb256 b hm2
    · exact hxlt
  have hb2 : ∀ b ∈ front ++ cb2, b < 256 := by
    intro b hbm
    rcases List.mem_append.1 hbm with hm | hm
    · exact hb b (List.mem_append_left cb hm)
    · exact hcb2256 b hm
  have htake4 : (front ++ cb2).take 4 = (front ++ cb).take 4 := by
    rw [take_append_le (by omega), take_append_le (by omega)]
  have hmod2 : chunkLengthAll (front ++ cb2) =
      (front ++ cb2).length % 2 ^ 32 := by
    unfold chunkLengthAll chunkDeclaredLength
    rw [htake4, hlen2]
    unfold chunkLengthAll chunkDeclaredLength at hmod
    exact hmod
  have hslice4 : ((front ++ cb2).drop 4).take 4 =
      ((front ++ cb).drop 4).take 4 := by
    rw [drop_append_le (by omega), drop_append_le (by omega),
      take_append_le (by rw [List.length_drop]; omega),
      take_append_le (by rw [List.length_drop]; omega)]
  have hdec2 : decodeType (((front ++ cb2).drop 4).take 4) =
      some c.chunk_type := by
    rw [hslice4]
    exact hdec
  have hmsg2 : ((front ++ cb2).drop 8).take ((front ++ cb2).length - 12) =
      front.drop 8 := by
    rw [hlen2, drop_append_le (by omega),
      take_append_le (by rw [List.length_drop]; omega)]
    exact List.take_all_of_le (by rw [List.length_drop]; omega)
  have hmsgv : ((front ++ cb).drop 8).take ((front ++ cb).length - 12) =
      front.drop 8 := by
    rw [drop_append_le (by omega),
      take_append_le (by rw [List.length_drop]; omega)]
    exact List.take_all_of_le (by rw [List.length_drop]; omega)
  have hlast2 : (front ++ cb2).drop ((front ++ cb2).length - 4) = cb2 := by
    rw [hlen2]
    exact List.drop_left' (by omega)
  have hlastv : (front ++ cb).drop ((front ++ cb).length - 4) = cb :=
    List.drop_left' (by omega)
  have hcrc_eq : crc_checksum c.chunk_type (front.drop 8) = fromBE4 cb := by
    rw [← hmsgv, ← hcdata, hchk, hccrc, hlastv,
      List.take_all_of_le (le_of_eq h4)]
  have hne : fromBE4 cb2 ≠ fromBE4 cb := by
    intro hcontra
    have heq := congrArg toBE4 hcontra
    rw [toBE4_fromBE4_list hcb2len hcb2256, toBE4_fromBE4_list h4 hcb256]
      at heq
    have hgd : cb.getD j 0 = x := by
      rw [← getD_set_self (l := cb) (j := j) (x := x) (by omega), ← hcb2, heq]
    rw [hx] at hgd
    exact xor_pow_ne hgd.symm
  have hcond : crc_checksum c.chunk_type
      (((front ++ cb2).drop 8).take ((front ++ cb2).length - 12)) ≠
      fromBE4 (((front ++ cb2).drop ((front ++ cb2).length - 4)).take 4) := by
    rw [hmsg2, hlast2, List.take_all_of_le (le_of_eq hcb2len), hcrc_eq]
    exact hne.symm
  rw [try_from_after_checks hb2 (by omega) (by omega) hmod2 hdec2,
    if_pos hcond]

/-! ## Claim theorems -/

/-- C7: for every ChunkType, is_critical, is_public and is_reserved_bit_valid
return true exactly when bit 0x20 (bit index 5) of bytes 0, 1 and 2
respectively is unset, while is_safe_to_copy has inverted polarity (true
exactly when bit 0x20 of byte 3 is set); concretely, RuSt is critical, not
public, reserved-bit valid and safe-to-copy, Rust has an invalid reserved
bit, and RuST is not safe-to-copy. -/
theorem c7_flag_queries :
    (∀ t : ChunkType,
      (t.is_critical = true ↔ Nat.testBit (t.bytes.getD 0 0) 5 = false) ∧
      (t.is_public = true ↔ Nat.testBit (t.bytes.getD 1 0) 5 = false) ∧
      (t.is_reserved_bit_valid = true ↔
        Nat.testBit (t.bytes.getD 2 0) 5 = false) ∧
      (t.is_safe_to_copy = true ↔ Nat.testBit (t.bytes.getD 3 0) 5 = true)) ∧
    (ChunkType.mk [82, 117, 83, 116]).is_critical = true ∧
    (ChunkType.mk [82, 117, 83, 116]).is_public = false ∧
    (ChunkType.mk [82, 117, 83, 116]).is_reserved_bit_valid = true ∧
    (ChunkType.mk [82, 117, 83, 116]).is_safe_to_copy = true ∧
    (ChunkType.mk [82, 117, 115, 116]).is_reserved_bit_valid = false ∧
    (ChunkType.mk [82, 117, 83, 84]).is_safe_to_copy = false := by
  refine ⟨fun t => ⟨?_, ?_, ?_, ?_⟩, by decide, by decide, by decide,
    by decide, by decide, by decide⟩
  · unfold ChunkType.is_critical
    rcases and32_cases (t.bytes.getD 0 0) with ⟨h1, h2⟩ | ⟨h1, h2⟩ <;>
      rw [h2] <;> simp <;> rwa [List.getD_eq_getElem?_getD] at h1
  · unfold ChunkType.is_public
    rcases and32_cases (t.bytes.getD 1 0) with ⟨h1, h2⟩ | ⟨h1, h2⟩ <;>
      rw [h2] <;> simp <;> rwa [List.getD_eq_getElem?_getD] at h1
  · unfold ChunkType.is_reserved_bit_valid
    rcases and32_cases (t.bytes.getD 2 0) with ⟨h1, h2⟩ | ⟨h1, h2⟩ <;>
      rw [h2] <;> simp <;> rwa [List.getD_eq_getElem?_getD] at h1
  · unfold ChunkType.is_safe_to_copy
    rcases and32_cases (t.bytes.getD 3 0) with ⟨h1, h2⟩ | ⟨h1, h2⟩ <;>
      rw [h2] <;> simp <;> rwa [List.getD_eq_getElem?_getD] at h1

/-- C9: for every ChunkType, is_valid returns exactly
is_reserved_bit_valid, and its value depends only on byte 2 of the type
code (not on the critical, public or safe-to-copy bytes 0, 1 and 3). -/
theorem c9_is_valid_reserved_only :
    (∀ t : ChunkType, t.is_valid = t.is_reserved_bit_valid) ∧
    (∀ t1 t2 : ChunkType, t1.bytes.getD 2 0 = t2.bytes.getD 2 0 →
      t1.is_valid = t2.is_valid) := by
  refine ⟨fun t => rfl, fun t1 t2 h => ?_⟩
  rw [List.getD_eq_getElem?_getD, List.getD_eq_getElem?_getD] at h
  simp [ChunkType.is_valid, ChunkType.is_reserved_bit_valid, h]

/-- C9 witness: two types agreeing on byte 2 but differing on bytes 0, 1
and 3 have the same is_valid value. -/
theorem c9_is_valid_reserved_only_witness :
    (ChunkType.mk [82, 117, 83, 116]).is_valid
      = (ChunkType.mk [114, 85, 83, 84]).is_valid :=
  c9_is_valid_reserved_only.2 _ _ (by decide)

/-- C10: Chunk::new stores as its length field the payload byte count
reduced modulo 2^32 (the u32 cast), stores and serializes the full
payload, and for payloads of 2^32 bytes or more the stored length differs
from the true payload size. -/
theorem c10_new_length_truncation :
    ∀ (t : ChunkType) (d : List Nat),
      (Chunk.new t d).length = d.length % 2 ^ 32 ∧
      (Chunk.new t d).chunk_data = d ∧
      (Chunk.new t d).as_bytes =
        toBE4 (d.length % 2 ^ 32) ++ t.bytes ++ d ++ toBE4 (crc_checksum t d) ∧
      (2 ^ 32 ≤ d.length → (Chunk.new t d).length ≠ d.length) := by
  intro t d
  refine ⟨rfl, rfl, rfl, fun hge => ?_⟩
  have hm : d.length % 2 ^ 32 < 2 ^ 32 := Nat.mod_lt _ (by norm_num)
  simp only [new_def]
  omega

/-- C10 witness: a payload of exactly 2^32 zero bytes gets a length field
different from its true size. -/
theorem c10_new_length_truncation_witness :
    2 ^ 32 ≤ (List.replicate (2 ^ 32) 0).length ∧
      (Chunk.new (ChunkType.mk [82, 117, 83, 116])
        (List.replicate (2 ^ 32) 0)).length ≠
        (List.replicate (2 ^ 32) 0).length :=
  ⟨by rw [List.length_replicate],
    (c10_new_length_truncation (ChunkType.mk [82, 117, 83, 116])
      (List.replicate (2 ^ 32) 0)).2.2.2 (by rw [List.length_replicate])⟩

/-- C6 counterexample: the string abcé has exactly 4 unicode scalar values
but 5 UTF-8 bytes; ChunkType::from_str rejects it with InvalidLength (the
length check counts bytes), not with InvalidCharacter as the claim (4
scalar values, é non-alphabetic) requires. -/
theorem c6_counterexample :
    ChunkType.from_str ['a', 'b', 'c', 'é'] = .error .invalidLength ∧
      (['a', 'b', 'c', 'é'] : List Char).length = 4 ∧
      ChunkTypeError.invalidLength ≠ ChunkTypeError.invalidCharacter :=
  ⟨by decide, by decide, by decide⟩

/-- C6 (amended): from_str fails with InvalidLength exactly when the
string is not 4 bytes long in UTF-8 (s.len() counts bytes, not scalar
values); for 4-byte strings it fails with InvalidCharacter exactly when
some character is outside A-Z and a-z; on success it stores the 4 ASCII
bytes of the string. -/
theorem c6_from_str_amended :
    ∀ s : List Char,
      (ChunkType.from_str s = .error .invalidLength ↔ utf8ByteLen s ≠ 4) ∧
      (utf8ByteLen s = 4 →
        (ChunkType.from_str s = .error .invalidCharacter ↔
          ∃ c ∈ s, ¬((isAsciiUpper c || isAsciiLower c) = true))) ∧
      (∀ ct : ChunkType, ChunkType.from_str s = .ok ct →
        ct.bytes = s.map Char.toNat ∧ s.length = 4 ∧
          ∀ b ∈ ct.bytes, isAlphaByte b) := by
  intro s
  refine ⟨?_, ?_, ?_⟩
  · unfold ChunkType.from_str
    by_cases h1 : utf8ByteLen s ≠ 4
    · rw [if_pos h1]
      simp [h1]
    · rw [if_neg h1]
      by_cases h2 : (s.any fun c => !(isAsciiUpper c || isAsciiLower c)) = true
      · rw [if_pos h2]
        simp
        omega
      · rw [if_neg h2]
        simp
        omega
  · intro h4
    unfold ChunkType.from_str
    rw [if_neg (by omega)]
    by_cases h2 : (s.any fun c => !(isAsciiUpper c || isAsciiLower c)) = true
    · rw [if_pos h2]
      simp only [List.any_eq_true, Bool.not_eq_true'] at h2
      obtain ⟨c, hc, hcc⟩ := h2
      refine ⟨fun _ => ⟨c, hc, ?_⟩, fun _ => rfl⟩
      simp [hcc]
    · rw [if_neg h2]
      rw [Bool.not_eq_true] at h2
      rw [List.any_eq_false] at h2
      refine ⟨fun hfalse => Except.noConfusion hfalse, ?_⟩
      rintro ⟨c, hc, hcc⟩
      have h3 := h2 c hc
      simp only [Bool.not_eq_true'] at h3
      simp at h3
      refine absurd (show (isAsciiUpper c || isAsciiLower c) = true from ?_) hcc
      by_cases hup : isAsciiUpper c = true
      · simp [hup]
      · simp [h3 (by simpa using hup)]
  · intro ct hok
    obtain ⟨halpha, hbytes, hlen⟩ := from_str_ok hok
    refine ⟨hbytes, hlen, ?_⟩
    intro b hb
    rw [hbytes] at hb
    obtain ⟨c, hc, rfl⟩ := List.mem_map.1 hb
    exact alpha_char_toNat (halpha c hc)

/-- C6 witness: from_str accepts RuSt and stores bytes 82, 117, 83, 116,
the 4 ASCII bytes of the string. -/
theorem c6_from_str_amended_witness :
    ChunkType.bytes ⟨[82, 117, 83, 116]⟩ =
        (['R', 'u', 'S', 't'] : List Char).map Char.toNat ∧
      (['R', 'u', 'S', 't'] : List Char).length = 4 ∧
      ∀ b ∈ ChunkType.bytes ⟨[82, 117, 83, 116]⟩, isAlphaByte b :=
  (c6_from_str_amended ['R', 'u', 'S', 't']).2.2 ⟨[82, 117, 83, 116]⟩
    (by decide)


set_option maxRecDepth 100000 in
/-- C1 counterexample: ChunkType can hold non-alphabetic bytes through the
raw TryFrom path; for T = bytes of Ru1t and D = [], Chunk::new succeeds
but parsing its serialization fails with InvalidType instead of
succeeding. -/
theorem c1_counterexample :
    Chunk.try_from (Chunk.new (ChunkType.mk [82, 117, 49, 116]) []).as_bytes =
        .err .invalidType ∧
      Chunk.try_from (Chunk.new (ChunkType.mk [82, 117, 49, 116]) []).as_bytes ≠
        .ok (Chunk.new (ChunkType.mk [82, 117, 49, 116]) []) :=
  ⟨by decide, by decide⟩

/-- C1 (amended): for every ChunkType whose 4 bytes are ASCII alphabetic
and every payload of byte values below 256 with length + 12 below 2^32,
parsing the serialization of Chunk::new(T, D) succeeds and yields exactly
the constructed chunk, whose length is the byte count of D, whose type is
T, whose payload is D, and whose checksum is CRC-32 over T.bytes ++ D. -/
theorem c1_roundtrip_amended (t : ChunkType) (d : List Nat)
    (h4 : t.bytes.length = 4) (ha : ∀ b ∈ t.bytes, isAlphaByte b)
    (hd : ∀ b ∈ d, b < 256) (hlen : d.length + 12 < 2 ^ 32) :
    Chunk.try_from (Chunk.new t d).as_bytes = .ok (Chunk.new t d) ∧
      (Chunk.new t d).length = d.length ∧
      (Chunk.new t d).chunk_type = t ∧
      (Chunk.new t d).chunk_data = d ∧
      (Chunk.new t d).crc = crc32 (t.bytes ++ d) := by
  refine ⟨try_from_new h4 ha hd hlen, ?_, rfl, rfl, rfl⟩
  simp only [new_def]
  exact Nat.mod_eq_of_lt (by omega)

set_option maxRecDepth 100000 in
/-- C1 witness: the round trip at the concrete type RuSt and payload
[1, 2, 3]. -/
theorem c1_roundtrip_amended_witness :
    Chunk.try_from (Chunk.new (ChunkType.mk [82, 117, 83, 116])
        [1, 2, 3]).as_bytes =
        .ok (Chunk.new (ChunkType.mk [82, 117, 83, 116]) [1, 2, 3]) ∧
      (Chunk.new (ChunkType.mk [82, 117, 83, 116]) [1, 2, 3]).length = 3 ∧
      (Chunk.new (ChunkType.mk [82, 117, 83, 116]) [1, 2, 3]).chunk_type =
        ChunkType.mk [82, 117, 83, 116] ∧
      (Chunk.new (ChunkType.mk [82, 117, 83, 116]) [1, 2, 3]).chunk_data =
        [1, 2, 3] ∧
      (Chunk.new (ChunkType.mk [82, 117, 83, 116]) [1, 2, 3]).crc =
        crc32 ([82, 117, 83, 116] ++ [1, 2, 3]) :=
  c1_roundtrip_amended (ChunkType.mk [82, 117, 83, 116]) [1, 2, 3]
    (by decide) (by decide) (by decide) (by decide)

/-- C8: every 12-byte input with length field 0, alphabetic type bytes and
final 4 bytes equal to the big-endian CRC-32 of the type bytes alone
parses successfully into a zero-length chunk with empty payload. -/
theorem c8_zero_length (tb : List Nat) (h4 : tb.length = 4)
    (ha : ∀ b ∈ tb, isAlphaByte b) :
    Chunk.try_from ([0, 0, 0, 0] ++ tb ++ toBE4 (crc32 tb)) =
      .ok ⟨0, ⟨tb⟩, [], crc32 tb⟩ := by
  have hcrc : crc_checksum ⟨tb⟩ [] = crc32 tb := by
    unfold crc_checksum
    rw [List.append_nil]
  have h1 : [0, 0, 0, 0] ++ tb ++ toBE4 (crc32 tb) =
      (Chunk.new ⟨tb⟩ []).as_bytes := by
    rw [as_bytes_def, new_def, hcrc]
    simp [toBE4]
  rw [h1, try_from_new h4 ha (by simp) (by norm_num)]
  rw [new_def, hcrc]
  rfl

/-- C8 witness: the concrete 12-byte zero-payload RuSt frame parses into
the zero-length RuSt chunk. -/
theorem c8_zero_length_witness :
    Chunk.try_from ([0, 0, 0, 0] ++ [82, 117, 83, 116] ++
        toBE4 (crc32 [82, 117, 83, 116])) =
      .ok ⟨0, ⟨[82, 117, 83, 116]⟩, [], crc32 [82, 117, 83, 116]⟩ :=
  c8_zero_length [82, 117, 83, 116] (by decide) (by decide)


theorem bigV_length : bigV.length = 2 ^ 32 + 12 := by
  rw [bigV, List.length_append, List.length_replicate]
  norm_num

theorem bigV_take4 : bigV.take 4 = [0, 0, 0, 0] := by
  rw [bigV, List.take_append_eq_append_take]
  rfl

set_option maxRecDepth 100000 in
theorem bigV_parse :
    Chunk.try_from bigV = .ok ⟨0, ⟨[82, 117, 83, 116]⟩, [], 3565422908⟩ := by
  have hlen := bigV_length
  have hdl : chunkDeclaredLength bigV = 0 := by
    unfold chunkDeclaredLength
    rw [bigV_take4]
    decide
  have hla : chunkLengthAll bigV = 12 := by
    unfold chunkLengthAll
    rw [hdl]
    decide
  have hdrop4 : (bigV.drop 4).take 4 = [82, 117, 83, 116] := by
    rw [bigV, List.drop_append_eq_append_drop]
    rfl
  have hdec : decodeType ((bigV.drop 4).take 4) =
      some ⟨[82, 117, 83, 116]⟩ := by
    rw [hdrop4]
    decide
  have hcs : crcStart bigV = 8 := by
    unfold crcStart
    rw [hla]
    decide
  have hdrop8 : (bigV.drop 8).take 4 = [212, 132, 9, 60] := by
    rw [bigV, List.drop_append_eq_append_drop]
    rfl
  unfold Chunk.try_from
  rw [if_neg (show ¬bigV.length < 12 by omega)]
  rw [if_neg (show ¬chunkLengthAll bigV ≠ bigV.length % 2 ^ 32 by
    rw [hla, hlen]
    norm_num)]
  split
  · rename_i heq
    rw [hdec] at heq
    cases heq
  · rename_i ct heq
    rw [hdec] at heq
    cases Option.some.inj heq
    rw [if_neg (show ¬8 + chunkDeclaredLength bigV > bigV.length by
      rw [hdl, hlen]
      norm_num)]
    rw [if_neg (show ¬(crcStart bigV > chunkLengthAll bigV ∨
        chunkLengthAll bigV > bigV.length) by
      rw [hcs, hla, hlen]
      norm_num)]
    rw [hcs, hdl, List.take_zero, hdrop8]
    rw [if_neg (by decide)]
    decide

/-- C3 counterexample: the input bigV has 2^32 + 12 bytes and declares
length 0, so 0 + 12 differs from the actual byte count as exact integers,
yet Chunk::try_from does not fail with LengthMismatch - it accepts the
frame and silently ignores 2^32 trailing bytes, because the length check
compares u32 truncations. -/
theorem c3_counterexample :
    12 ≤ bigV.length ∧
      fromBE4 (bigV.take 4) + 12 ≠ bigV.length ∧
      Chunk.try_from bigV ≠ .err .lengthMismatch ∧
      Chunk.try_from bigV = .ok ⟨0, ⟨[82, 117, 83, 116]⟩, [], 3565422908⟩ := by
  refine ⟨by rw [bigV_length]; norm_num, ?_, by rw [bigV_parse]; simp, bigV_parse⟩
  rw [bigV_take4, bigV_length]
  decide

/-- C3 (amended): for every input of at least 12 bytes, parsing fails
with LengthMismatch if and only if (L + 12) and the input byte count
disagree modulo 2^32 - the comparison is between u32 truncations, so
inputs of 2^32 + L + 12 bytes with trailing garbage slip through. -/
theorem c3_length_check_amended (v : List Nat) (h12 : 12 ≤ v.length) :
    Chunk.try_from v = .err .lengthMismatch ↔
      (fromBE4 (v.take 4) + 12) % 2 ^ 32 ≠ v.length % 2 ^ 32 := by
  constructor
  · intro h
    by_contra hmod
    unfold Chunk.try_from at h
    rw [if_neg (show ¬v.length < 12 by omega)] at h
    rw [if_neg (show ¬chunkLengthAll v ≠ v.length % 2 ^ 32 by
      unfold chunkLengthAll chunkDeclaredLength
      omega)] at h
    split at h
    · simp at h
    · split_ifs at h <;> simp at h
  · intro hmod
    unfold Chunk.try_from
    rw [if_neg (show ¬v.length < 12 by omega)]
    rw [if_pos (show chunkLengthAll v ≠ v.length % 2 ^ 32 by
      unfold chunkLengthAll chunkDeclaredLength
      omega)]

/-- C3 witness: a 12-byte frame declaring length 1 fails with
LengthMismatch, matching the truncated comparison 13 mod 2^32 against 12
mod 2^32. -/
theorem c3_length_check_amended_witness :
    Chunk.try_from [0, 0, 0, 1, 82, 117, 83, 116, 0, 0, 0, 0] =
        .err .lengthMismatch ↔
      (fromBE4 (([0, 0, 0, 1, 82, 117, 83, 116, 0, 0, 0, 0] :
        List Nat).take 4) + 12) % 2 ^ 32 ≠
        ([0, 0, 0, 1, 82, 117, 83, 116, 0, 0, 0, 0] : List Nat).length %
          2 ^ 32 :=
  c3_length_check_amended [0, 0, 0, 1, 82, 117, 83, 116, 0, 0, 0, 0]
    (by decide)

theorem panicV_length : panicV.length = 2 ^ 32 + 2 := by
  rw [panicV, List.length_append, List.length_replicate]
  norm_num

set_option maxRecDepth 100000 in
/-- C5: the claim that chunk parsing never panics is violated by the code:
on the 2^32 + 2 byte input panicV, whose declared length 4294967286 makes
length_all wrap to 2, the length check passes, the type parses, and the
checksum slice start underflows (length_all as usize - 4 wraps to
2^64 - 2), so the slice indexing panics instead of returning a typed
error. -/
theorem c5_panic_reachable : Chunk.try_from panicV = .panicked := by
  have hlen := panicV_length
  have htake4 : panicV.take 4 = [255, 255, 255, 246] := by
    rw [panicV, List.take_append_eq_append_take]
    rfl
  have hdl : chunkDeclaredLength panicV = 4294967286 := by
    unfold chunkDeclaredLength
    rw [htake4]
    decide
  have hla : chunkLengthAll panicV = 2 := by
    unfold chunkLengthAll
    rw [hdl]
    decide
  have hdrop4 : (panicV.drop 4).take 4 = [82, 117, 83, 116] := by
    rw [panicV, List.drop_append_eq_append_drop]
    rfl
  have hdec : decodeType ((panicV.drop 4).take 4) =
      some ⟨[82, 117, 83, 116]⟩ := by
    rw [hdrop4]
    decide
  have hcs : crcStart panicV = 2 ^ 64 - 2 := by
    unfold crcStart
    rw [hla]
    decide
  unfold Chunk.try_from
  rw [if_neg (show ¬panicV.length < 12 by omega)]
  rw [if_neg (show ¬chunkLengthAll panicV ≠ panicV.length % 2 ^ 32 by
    rw [hla, hlen]
    norm_num)]
  split
  · rename_i heq
    rw [hdec] at heq
    cases heq
  · rename_i ct heq
    rw [hdec] at heq
    cases Option.some.inj heq
    rw [if_neg (show ¬8 + chunkDeclaredLength panicV > panicV.length by
      rw [hdl, hlen]
      norm_num)]
    rw [if_pos (show crcStart panicV > chunkLengthAll panicV ∨
        chunkLengthAll panicV > panicV.length by
      rw [hcs, hla]
      norm_num)]


/-- C2 counterexample: bigV (2^32 + 12 bytes with trailing garbage) is
accepted by Chunk::try_from, but serializing the resulting chunk gives the
12-byte frame, not bigV - parse followed by serialize is not the identity
on all accepted inputs. -/
theorem c2_counterexample :
    Chunk.try_from bigV = .ok ⟨0, ⟨[82, 117, 83, 116]⟩, [], 3565422908⟩ ∧
      Chunk.as_bytes ⟨0, ⟨[82, 117, 83, 116]⟩, [], 3565422908⟩ ≠ bigV := by
  refine ⟨bigV_parse, fun hcontra => ?_⟩
  have h1 : (Chunk.as_bytes ⟨0, ⟨[82, 117, 83, 116]⟩, [],
      3565422908⟩).length = 12 := by decide
  rw [hcontra, bigV_length] at h1
  norm_num at h1

/-- C2 (amended): for every byte sequence of fewer than 2^32 bytes on
which Chunk::try_from succeeds, as_bytes on the resulting chunk reproduces
the input exactly, and the serialization is the big-endian 4-byte length,
the 4 type bytes, the payload and the big-endian 4-byte checksum in that
order. -/
theorem c2_roundtrip_amended (v : List Nat) (c : Chunk)
    (hb : ∀ b ∈ v, b < 256) (hlt : v.length < 2 ^ 32)
    (h : Chunk.try_from v = .ok c) :
    Chunk.as_bytes c = v ∧
      Chunk.as_bytes c = toBE4 c.length ++ c.chunk_type.bytes ++
        c.chunk_data ++ toBE4 c.crc := by
  refine ⟨?_, rfl⟩
  obtain ⟨h12, hdec, hclen, hcdata, hccrc, _⟩ := try_from_ok_shape hb hlt h
  obtain ⟨h12b, hmod⟩ := try_from_ok_basic h
  have hexact : chunkDeclaredLength v + 12 = v.length :=
    length_exact hb h12 hlt hmod
  obtain ⟨htb, _, _⟩ := decodeType_some hdec
  have h1 : toBE4 c.length = v.take 4 := by
    rw [hclen, show v.length - 12 = chunkDeclaredLength v by omega]
    unfold chunkDeclaredLength
    refine toBE4_fromBE4_list ?_ (fun b hb2 => hb b (List.mem_of_mem_take hb2))
    rw [List.length_take]
    rw [Nat.min_def]
    split <;> omega
  have h3 : toBE4 c.crc = (v.drop (v.length - 4)).take 4 := by
    rw [hccrc]
    refine toBE4_fromBE4_list ?_ (fun b hb2 =>
      hb b (List.mem_of_mem_drop (List.mem_of_mem_take hb2)))
    rw [List.length_take, List.length_drop]
    rw [Nat.min_def]
    split <;> omega
  rw [as_bytes_def, h1, htb, hcdata, h3]
  exact frame_decomp v h12

set_option maxRecDepth 100000 in
/-- C2 witness: the 12-byte zero-payload RuSt frame round-trips exactly. -/
theorem c2_roundtrip_amended_witness :
    Chunk.as_bytes ⟨0, ⟨[82, 117, 83, 116]⟩, [], 3565422908⟩ =
      [0, 0, 0, 0, 82, 117, 83, 116, 212, 132, 9, 60] :=
  (c2_roundtrip_amended [0, 0, 0, 0, 82, 117, 83, 116, 212, 132, 9, 60]
    ⟨0, ⟨[82, 117, 83, 116]⟩, [], 3565422908⟩
    (by decide) (by decide) (by decide)).1


set_option maxRecDepth 100000 in
/-- C4 counterexample: the 12-byte input ru1tFrame passes the length
checks, its recomputed CRC-32 over type bytes and payload differs from the
declared checksum 0, yet parsing fails with InvalidType (the type check
runs before the checksum check), not with ChecksumMismatch as the claim
requires. -/
theorem c4_counterexample :
    12 ≤ ru1tFrame.length ∧
      (fromBE4 (ru1tFrame.take 4) + 12) % 2 ^ 32 =
        ru1tFrame.length % 2 ^ 32 ∧
      crc32 ((ru1tFrame.drop 4).take 4 ++
        (ru1tFrame.drop 8).take (ru1tFrame.length - 12)) ≠
        fromBE4 ((ru1tFrame.drop (ru1tFrame.length - 4)).take 4) ∧
      Chunk.try_from ru1tFrame = .err .invalidType ∧
      ChunkError.invalidType ≠ ChunkError.checksumMismatch := by
  refine ⟨by decide, by decide, by decide, by decide, by decide⟩

/-- C4 (amended): for every input of fewer than 2^32 bytes that passes the
length checks and the type check, parsing fails with ChecksumMismatch
exactly when CRC-32 over the 4 type bytes followed by the payload differs
from the big-endian value of the final 4 checksum bytes; and flipping any
single bit of the 4-byte checksum field of a previously valid frame makes
parsing fail with ChecksumMismatch. -/
theorem c4_checksum_amended :
    (∀ (v : List Nat) (t : ChunkType), (∀ b ∈ v, b < 256) → 12 ≤ v.length →
      v.length < 2 ^ 32 →
      (fromBE4 (v.take 4) + 12) % 2 ^ 32 = v.length % 2 ^ 32 →
      decodeType ((v.drop 4).take 4) = some t →
      (Chunk.try_from v = .err .checksumMismatch ↔
        crc32 ((v.drop 4).take 4 ++ (v.drop 8).take (v.length - 12)) ≠
          fromBE4 ((v.drop (v.length - 4)).take 4))) ∧
    (∀ (front cb : List Nat) (c : Chunk) (j i : Nat),
      (∀ b ∈ front ++ cb, b < 256) → (front ++ cb).length < 2 ^ 32 →
      cb.length = 4 → j < 4 → i < 8 →
      Chunk.try_from (front ++ cb) = .ok c →
      Chunk.try_from (front ++ cb.set j (cb.getD j 0 ^^^ 2 ^ i)) =
        .err .checksumMismatch) := by
  constructor
  · intro v t hb h12 hlt hmod hdec
    have hmod2 : chunkLengthAll v = v.length % 2 ^ 32 := by
      unfold chunkLengthAll chunkDeclaredLength
      exact hmod
    obtain ⟨htb, _, _⟩ := decodeType_some hdec
    have hcrc : crc32 ((v.drop 4).take 4 ++ (v.drop 8).take (v.length - 12)) =
        crc_checksum t ((v.drop 8).take (v.length - 12)) := by
      unfold crc_checksum
      rw [htb]
    rw [try_from_after_checks hb h12 hlt hmod2 hdec, hcrc]
    by_cases hc : crc_checksum t ((v.drop 8).take (v.length - 12)) ≠
        fromBE4 ((v.drop (v.length - 4)).take 4)
    · rw [if_pos hc]
      simp [hc]
    · rw [if_neg hc]
      rw [not_ne_iff] at hc
      simp [hc]
  · exact fun front cb c j i hb hlt h4 hj hi hok =>
      bitflip_checksum hb hlt h4 hj hi hok

set_option maxRecDepth 100000 in
/-- C4 witness: the RuSt frame with a zero checksum field fails with
ChecksumMismatch (its recomputed CRC differs from 0), and flipping bit 0
of checksum byte 0 of the valid zero-payload RuSt frame makes parsing fail
with ChecksumMismatch. -/
theorem c4_checksum_amended_witness :
    (Chunk.try_from rustBadCrcFrame = .err .checksumMismatch ↔
      crc32 ((rustBadCrcFrame.drop 4).take 4 ++
        (rustBadCrcFrame.drop 8).take (rustBadCrcFrame.length - 12)) ≠
        fromBE4 ((rustBadCrcFrame.drop (rustBadCrcFrame.length - 4)).take 4)) ∧
    Chunk.try_from ([0, 0, 0, 0, 82, 117, 83, 116] ++
        ([212, 132, 9, 60] : List Nat).set 0
          (([212, 132, 9, 60] : List Nat).getD 0 0 ^^^ 2 ^ 0)) =
      .err .checksumMismatch :=
  ⟨c4_checksum_amended.1 rustBadCrcFrame ⟨[82, 117, 83, 116]⟩ (by decide)
      (by decide) (by decide) (by decide) (by decide),
    c4_checksum_amended.2 [0, 0, 0, 0, 82, 117, 83, 116] [212, 132, 9, 60]
      ⟨0, ⟨[82, 117, 83, 116]⟩, [], 3565422908⟩ 0 0 (by decide) (by decide)
      (by decide) (by decide) (by decide) (by decide)⟩

end Pngme
